import Mathlib

/-!
Verification of `flask_hh_api` (`hh_api.py`): a shallow embedding of the
`HHVacancyAnalyzer` class — its tokenizer `parse_requirements`, its statistics
pipeline `analyze_vacancies`, its fetch layer `get_vacancies` (wrapped in a
`cachetools` TTL cache), and its persistence call `save_to_db` — together with
theorems settling the specification's claims about them.

Modelling conventions:
* Python strings are `List Char` (`Str`); `str` injects Lean string literals.
* Python numbers entering salary statistics are `ℤ`; derived statistics
  (average, median, percentages) are `ℚ`.  Python's `round(x, 2)` is modelled
  as exact round-half-to-even at two decimals on `ℚ` (`pyRound2`).
* The two `TTLCache` instances (the `@cached` response cache on
  `get_vacancies` and `self.cache`, the result cache) are modelled as
  association lists: within the 1-hour TTL and below the 100-entry bound —
  the regime every cache claim quantifies over — a TTL/LRU map behaves as a
  plain map, with `cachetools.cached` storing whatever the wrapped function
  returned (including `None`).
* `requests.get` plus the `try/except RequestException` block is a black box
  `Net := Params → Option Document`: `none` models a transport error caught
  and converted to `return None`.
* `save_to_db` runs against an external SQLite database; its only relevance
  to the claims is whether it raises, so `analyze_vacancies` takes a
  `persistOk : Bool` and propagates an exception (`Outcome.raised`) exactly
  where the Python code would let one escape.
-/

/-- Python strings, embedded as lists of characters. -/
abbrev Str := List Char

/-- Embed a Lean string literal as a `Str`. -/
def str (s : String) : Str := s.data

/-- Python `str.split()` with no separator: split on runs of whitespace,
producing no empty tokens.  `acc` holds the current token, reversed. -/
def splitWsAux : Str → Str → List Str
  | [], acc => if acc = [] then [] else [acc.reverse]
  | c :: cs, acc =>
    if c.isWhitespace then
      if acc = [] then splitWsAux cs [] else acc.reverse :: splitWsAux cs []
    else
      splitWsAux cs (c :: acc)

/-- Python `description.split()`. -/
def splitWs (s : Str) : List Str := splitWsAux s []

/-- Python `str.strip()`: drop whitespace from both ends. -/
def pyStrip (s : Str) : Str :=
  ((s.dropWhile Char.isWhitespace).reverse.dropWhile Char.isWhitespace).reverse

/-- Python `str.lower()` character-wise, as in CPython for ASCII data. -/
def pyLower (s : Str) : Str := s.map Char.toLower

/-- Embedding of `HHVacancyAnalyzer.parse_requirements` (hh_api.py:38-41):
`tuple([req.strip().lower() for req in description.split() if len(req) > 2])`.
The length test is applied to the raw token, the normalisation afterwards,
exactly as in the list comprehension.  The `lru_cache` memo is semantically
invisible for a pure function and is not modelled. -/
def parse_requirements (description : Str) : List Str :=
  ((splitWs description).filter (fun t => decide (2 < t.length))).map
    (fun t => pyLower (pyStrip t))

/-- The specification's reading of the tokenizer: split on whitespace,
normalise (trim, lower-case) every token, keep the tokens longer than two
characters, in order. -/
def specTokens (description : Str) : List Str :=
  ((splitWs description).map (fun t => pyLower (pyStrip t))).filter
    (fun t => decide (2 < t.length))

-- Tokens produced by `splitWsAux` contain no whitespace characters.
theorem splitWsAux_no_ws (s : Str) : ∀ acc : Str,
    (∀ c ∈ acc, c.isWhitespace = false) →
    ∀ t ∈ splitWsAux s acc, ∀ c ∈ t, c.isWhitespace = false := by
  induction s with
  | nil =>
    intro acc hacc t ht c hc
    by_cases h : acc = []
    · simp [splitWsAux, h] at ht
    · simp only [splitWsAux, if_neg h, List.mem_singleton] at ht
      subst ht
      exact hacc c (List.mem_reverse.mp hc)
  | cons a s ih =>
    intro acc hacc t ht c hc
    cases hw : a.isWhitespace with
    | true =>
      by_cases h : acc = []
      · simp only [splitWsAux, hw, if_pos h, if_true] at ht
        exact ih [] (by simp) t ht c hc
      · simp only [splitWsAux, hw, if_neg h, if_true, List.mem_cons] at ht
        rcases ht with rfl | ht
        · exact hacc c (List.mem_reverse.mp hc)
        · exact ih [] (by simp) t ht c hc
    | false =>
      simp only [splitWsAux, hw, Bool.false_eq_true, if_false] at ht
      refine ih (a :: acc) ?_ t ht c hc
      intro d hd
      rcases List.mem_cons.mp hd with rfl | hd
      · exact hw
      · exact hacc d hd

theorem mem_splitWs_no_ws {s t : Str} (ht : t ∈ splitWs s) :
    ∀ c ∈ t, c.isWhitespace = false :=
  splitWsAux_no_ws s [] (by simp) t ht

theorem dropWhile_eq_self_of_none {p : Char → Bool} {l : Str}
    (h : ∀ c ∈ l, p c = false) : l.dropWhile p = l := by
  cases l with
  | nil => rfl
  | cons a l => simp [List.dropWhile_cons, h a (List.mem_cons_self a l)]

theorem pyStrip_eq_self {t : Str} (h : ∀ c ∈ t, c.isWhitespace = false) :
    pyStrip t = t := by
  unfold pyStrip
  rw [dropWhile_eq_self_of_none h,
    dropWhile_eq_self_of_none (fun c hc => h c (List.mem_reverse.mp hc)),
    List.reverse_reverse]

theorem filter_map_swap {α β : Type} (f : α → β) (p : β → Bool) (l : List α) :
    (l.map f).filter p = (l.filter (fun a => p (f a))).map f := by
  induction l with
  | nil => rfl
  | cons a l ih =>
    by_cases h : p (f a)
    · simp [List.filter_cons, h, ih]
    · simp [List.filter_cons, h, ih]

/-- Python `round(q, 2)` idealised over `ℚ`: the integer nearest to `q * 100`,
ties to the even integer (banker's rounding), divided by 100. -/
def roundHalfEven (q : ℚ) : ℤ :=
  if q - ⌊q⌋ < 1/2 then ⌊q⌋
  else if 1/2 < q - ⌊q⌋ then ⌊q⌋ + 1
  else if ⌊q⌋ % 2 = 0 then ⌊q⌋ else ⌊q⌋ + 1

/-- Python `round(q, 2)`. -/
def pyRound2 (q : ℚ) : ℚ := (roundHalfEven (q * 100) : ℚ) / 100

theorem roundHalfEven_intCast (z : ℤ) : roundHalfEven (z : ℚ) = z := by
  unfold roundHalfEven
  rw [Int.floor_intCast]
  norm_num

theorem pyRound2_zero : pyRound2 0 = 0 := by
  have h0 : (0 : ℚ) * 100 = ((0 : ℤ) : ℚ) := by norm_num
  unfold pyRound2
  rw [h0, roundHalfEven_intCast]
  norm_num

/-- Rounding to two decimals leaves any half-integer unchanged. -/
theorem pyRound2_int_div_two (z : ℤ) : pyRound2 ((z : ℚ) / 2) = (z : ℚ) / 2 := by
  unfold pyRound2
  have h : ((z : ℚ) / 2) * 100 = ((50 * z : ℤ) : ℚ) := by push_cast; ring
  rw [h, roundHalfEven_intCast]
  push_cast
  ring

/-- Ascending sort of an integer sample, as `sorted(salaries)` inside
`statistics.median`. -/
def sortedAsc (l : List ℤ) : List ℤ :=
  List.insertionSort (fun a b : ℤ => a ≤ b) l

/-- Python `statistics.median` on an integer sample: sort ascending; odd
length takes the middle element, even length averages the two middle ones
with true division. -/
def medianOf (l : List ℤ) : ℚ :=
  if (sortedAsc l).length % 2 = 1 then
    (((sortedAsc l).getD ((sortedAsc l).length / 2) 0 : ℤ) : ℚ)
  else
    ((((sortedAsc l).getD ((sortedAsc l).length / 2 - 1) 0 : ℤ) : ℚ)
      + (((sortedAsc l).getD ((sortedAsc l).length / 2) 0 : ℤ) : ℚ)) / 2

/-- The specification's "standard median": with the sample sorted ascending,
average the elements at positions `(n-1)/2` and `n/2` (these coincide for odd
`n`); `0` for an empty sample. -/
def specMedian (l : List ℤ) : ℚ :=
  if l = [] then 0
  else
    ((((sortedAsc l).getD (((sortedAsc l).length - 1) / 2) 0 : ℤ) : ℚ)
      + (((sortedAsc l).getD ((sortedAsc l).length / 2) 0 : ℤ) : ℚ)) / 2

/-- The specification's average: `sum(salaries)/count`, `0` for an empty
sample. -/
def specAverage (l : List ℤ) : ℚ :=
  if l = [] then 0 else (l.sum : ℚ) / (l.length : ℚ)

/-- The median of an integer sample is a half-integer. -/
theorem medianOf_eq_int_div_two (l : List ℤ) :
    ∃ z : ℤ, medianOf l = (z : ℚ) / 2 := by
  unfold medianOf
  by_cases h : (sortedAsc l).length % 2 = 1
  · refine ⟨2 * (sortedAsc l).getD ((sortedAsc l).length / 2) 0, ?_⟩
    simp only [h, if_true]
    push_cast
    ring
  · refine ⟨(sortedAsc l).getD ((sortedAsc l).length / 2 - 1) 0
      + (sortedAsc l).getD ((sortedAsc l).length / 2) 0, ?_⟩
    simp only [h, if_false]
    push_cast
    ring

theorem medianOf_eq_specMedian {l : List ℤ} (h : l ≠ []) :
    medianOf l = specMedian l := by
  unfold medianOf specMedian
  simp only [if_neg h]
  have hlen : (sortedAsc l).length = l.length :=
    (List.perm_insertionSort _ l).length_eq
  have hl0 : l.length ≠ 0 := fun hh => h (List.length_eq_zero.mp hh)
  rcases Nat.even_or_odd (sortedAsc l).length with he | ho
  · obtain ⟨k, hk⟩ := he
    have h2 : ¬ (sortedAsc l).length % 2 = 1 := by omega
    have e1 : ((sortedAsc l).length - 1) / 2 = (sortedAsc l).length / 2 - 1 := by
      omega
    simp only [if_neg h2, e1]
  · obtain ⟨k, hk⟩ := ho
    have h2 : (sortedAsc l).length % 2 = 1 := by omega
    have e1 : ((sortedAsc l).length - 1) / 2 = (sortedAsc l).length / 2 := by
      omega
    simp only [if_pos h2, e1]
    ring

/-- Number of occurrences of `a` in `l` (`collections.Counter`'s count). -/
def countOcc {α : Type} [DecidableEq α] (l : List α) (a : α) : ℕ :=
  (l.filter (fun x => decide (x = a))).length

/-- Distinct elements of `l` in first-encountered order; `seen` accumulates
the elements already emitted. -/
def firstOccsAux {α : Type} [DecidableEq α] (seen : List α) : List α → List α
  | [] => []
  | a :: l =>
    if a ∈ seen then firstOccsAux seen l else a :: firstOccsAux (a :: seen) l

/-- Distinct elements of `l` in first-encountered order. -/
def firstOccs {α : Type} [DecidableEq α] (l : List α) : List α :=
  firstOccsAux [] l

/-- Embedding of `collections.Counter(l).items()`: one `(element, count)` pair per distinct
element, keys in first-encountered order (Python dicts preserve insertion
order). -/
def counterItems {α : Type} [DecidableEq α] (l : List α) : List (α × ℕ) :=
  (firstOccs l).map (fun a => (a, countOcc l a))

/-- Ordering used by `sorted(..., key=lambda x: x[1], reverse=True)` and by
`Counter.most_common`: pair `a` goes before pair `b` when `a`'s count is at
least `b`'s. -/
def countGe {α : Type} (a b : α × ℕ) : Prop := b.2 ≤ a.2

instance {α : Type} : DecidableRel (@countGe α) := fun a b => Nat.decLe b.2 a.2

instance {α : Type} : IsTotal (α × ℕ) countGe := ⟨fun a b => le_total b.2 a.2⟩

instance {α : Type} : IsTrans (α × ℕ) countGe :=
  ⟨fun _ _ _ h1 h2 => le_trans h2 h1⟩

/-- Python's `sorted(items, key=lambda x: x[1], reverse=True)`: a stable sort
descending on the count.  `List.insertionSort` with `countGe` is stable in
exactly Python's sense, placing a newly considered (originally earlier)
element before every element of equal count. -/
def sortByCountDesc {α : Type} (l : List (α × ℕ)) : List (α × ℕ) :=
  List.insertionSort countGe l

theorem sortByCountDesc_perm {α : Type} (l : List (α × ℕ)) :
    (sortByCountDesc l).Perm l :=
  List.perm_insertionSort countGe l

theorem sortByCountDesc_pairwise {α : Type} (l : List (α × ℕ)) :
    List.Pairwise (fun a b : α × ℕ => b.2 ≤ a.2) (sortByCountDesc l) :=
  List.sorted_insertionSort countGe l

-- Filtering on an exact count commutes with `orderedInsert`, splitting off
-- the inserted element when its count matches: the elements the insertion
-- walks past all have a strictly larger count.
theorem filter_orderedInsert_count {α : Type} (a : α × ℕ) (c : ℕ)
    (l : List (α × ℕ)) :
    (List.orderedInsert countGe a l).filter (fun p => decide (p.2 = c))
      = if a.2 = c then a :: l.filter (fun p => decide (p.2 = c))
        else l.filter (fun p => decide (p.2 = c)) := by
  induction l with
  | nil =>
    by_cases h : a.2 = c
    · simp [List.orderedInsert, List.filter_cons, h]
    · simp [List.orderedInsert, List.filter_cons, h]
  | cons b l ih =>
    by_cases hab : countGe a b
    · by_cases h : a.2 = c
      · simp [List.orderedInsert, if_pos hab, List.filter_cons, h]
      · simp [List.orderedInsert, if_pos hab, List.filter_cons, h]
    · have hb : ¬ b.2 = c ∨ ¬ a.2 = c := by
        by_cases h : a.2 = c
        · left
          intro hbc
          exact hab (le_of_eq (hbc.trans h.symm))
        · right; exact h
      by_cases h : a.2 = c
      · rcases hb with hb | hb
        · simp [List.orderedInsert, if_neg hab, List.filter_cons, h, hb, ih]
        · exact absurd h hb
      · by_cases hbc : b.2 = c
        · simp [List.orderedInsert, if_neg hab, List.filter_cons, h, hbc, ih]
        · simp [List.orderedInsert, if_neg hab, List.filter_cons, h, hbc, ih]

/-- Stability of the ranking: restricted to the pairs of any fixed count `c`,
the descending sort returns them in their original order. -/
theorem sortByCountDesc_stable {α : Type} (l : List (α × ℕ)) (c : ℕ) :
    (sortByCountDesc l).filter (fun p => decide (p.2 = c))
      = l.filter (fun p => decide (p.2 = c)) := by
  induction l with
  | nil => rfl
  | cons a l ih =>
    have hstep : sortByCountDesc (a :: l)
        = List.orderedInsert countGe a (sortByCountDesc l) := by
      simp [sortByCountDesc, List.insertionSort]
    rw [hstep, filter_orderedInsert_count, ih]
    by_cases h : a.2 = c
    · simp [List.filter_cons, h]
    · simp [List.filter_cons, h]

/-- Lookup in an association list, newest entry first: the model of
`cache[key]`/`key in cache` for both TTL caches. -/
def lookupAssoc {α β : Type} [DecidableEq α] : List (α × β) → α → Option β
  | [], _ => none
  | (k, v) :: l, a => if a = k then some v else lookupAssoc l a

theorem lookupAssoc_cons_self {α β : Type} [DecidableEq α] (k : α) (v : β)
    (l : List (α × β)) : lookupAssoc ((k, v) :: l) k = some v := by
  simp [lookupAssoc]

/-- One vacancy object from the API's `items` array, with exactly the fields
`analyze_vacancies` and `save_to_db` read.  `Option` encodes a missing or
`null` field: `salaryFrom = none` is a listing without a `salary` object,
`salaryFrom = some none` a `salary` object whose `from` is `null`.
`snippetRequirement = none` covers a missing `snippet`, a missing
`requirement` key, and a `null` requirement — all of which Python's
`vacancy.get('snippet', {}).get('requirement', '')` plus the `if description:`
guard treat the same as the empty string. -/
structure Vacancy where
  name : Str
  employerName : Option Str
  salaryFrom : Option (Option ℤ)
  salaryTo : Option (Option ℤ)
  areaName : Str
  experienceName : Option Str
  employmentName : Option Str
  alternateUrl : Str
  snippetRequirement : Option Str
deriving DecidableEq

/-- The JSON document returned by the vacancies endpoint; `analyze_vacancies`
reads only `data['items']`. -/
structure Document where
  items : List Vacancy
deriving DecidableEq

/-- Python truthiness test `v.get('salary') and v['salary'].get('from')`
(hh_api.py:88): the lower bound is kept only when the `salary` object exists
and its `from` field is neither `null` nor `0`. -/
def salaryFromTruthy (v : Vacancy) : Option ℤ :=
  match v.salaryFrom with
  | some (some x) => if x = 0 then none else some x
  | _ => none

/-- The salary sample `salaries` (hh_api.py:88), in listing order. -/
def salariesOf (vs : List Vacancy) : List ℤ :=
  vs.filterMap salaryFromTruthy

/-- Requirement tokens contributed by one vacancy (hh_api.py:93-97): the
snippet is parsed only when present and non-empty. -/
def reqsOfVacancy (v : Vacancy) : List Str :=
  match v.snippetRequirement with
  | none => []
  | some d => if d = [] then [] else parse_requirements d

/-- Embedding of `all_requirements` (hh_api.py:92-97): tokens of every vacancy,
concatenated in listing order. -/
def allReqs (vs : List Vacancy) : List Str :=
  (vs.map reqsOfVacancy).flatten

/-- Embedding of `req_count = Counter(all_requirements)` (hh_api.py:99). -/
def reqCount (vs : List Vacancy) : List (Str × ℕ) :=
  counterItems (allReqs vs)

/-- Embedding of `sorted_req` (hh_api.py:101). -/
def sortedReq (vs : List Vacancy) : List (Str × ℕ) :=
  sortByCountDesc (reqCount vs)

/-- Embedding of `companies = Counter(v['employer']['name'] for v in vacancies if
v.get('employer'))` (hh_api.py:105). -/
def companiesOf (vs : List Vacancy) : List (Str × ℕ) :=
  counterItems (vs.filterMap Vacancy.employerName)

/-- The `result` dictionary built by `analyze_vacancies` (hh_api.py:107-121).
Dictionaries with unique keys are association lists in key-insertion order:
`requirements.count` is `dict(sorted_req)` (sorted order), while
`requirements.percentage` is a comprehension over `req_count.items()`
(first-encounter order), as in the source. -/
structure AnalysisResult where
  query : Str
  total_vacancies : ℕ
  average_salary : ℚ
  median_salary : ℚ
  requirements_count : List (Str × ℕ)
  requirements_percentage : List (Str × ℚ)
  top_skills : List (Str × ℕ)
  unique_requirements : ℕ
  experience_distribution : List (Str × ℕ)
  employment_distribution : List (Str × ℕ)
  top_companies : List (Str × ℕ)
deriving DecidableEq

/-- The statistics pass of `analyze_vacancies` (hh_api.py:87-121) applied to
`vacancies = data['items']`.  `top_companies` uses `Counter.most_common(10)`,
documented as `sorted(iterable, key=itemgetter(1), reverse=True)[:10]` with
equal counts in first-encountered order — the same stable descending sort as
`sorted_req`. -/
def computeResult (query : Str) (vs : List Vacancy) : AnalysisResult :=
  { query := query
    total_vacancies := vs.length
    average_salary := pyRound2
      (if salariesOf vs = [] then 0
       else ((salariesOf vs).sum : ℚ) / ((salariesOf vs).length : ℚ))
    median_salary := pyRound2
      (if salariesOf vs = [] then 0 else medianOf (salariesOf vs))
    requirements_count := sortedReq vs
    requirements_percentage := (reqCount vs).map
      (fun p => (p.1, pyRound2 (((p.2 : ℚ) / (vs.length : ℚ)) * 100)))
    top_skills := (sortedReq vs).take 10
    unique_requirements := (reqCount vs).length
    experience_distribution := counterItems (vs.filterMap Vacancy.experienceName)
    employment_distribution := counterItems (vs.filterMap Vacancy.employmentName)
    top_companies := (sortByCountDesc (companiesOf vs)).take 10 }

/-- The five query parameters, in positional order. -/
abbrev Params := Str × Str × Str × Str × Str

/-- The network black box: `requests.get` + `raise_for_status` + the
`except RequestException` handler.  `none` is a transport failure turned into
`return None` (hh_api.py:30-36). -/
abbrev Net := Params → Option Document

/-- Embedding of `cache_key = f"{query}_{area}_{experience}_{employment}_{salary}"`
(hh_api.py:75). -/
def cacheKey (q a e em s : Str) : Str :=
  q ++ '_' :: (a ++ '_' :: (e ++ '_' :: (em ++ '_' :: s)))

/-- The analyzer's mutable state: `self.cache` (the result cache), the
`@cached` TTL cache wrapping `get_vacancies`, and an instrumentation counter
of actual outbound network calls. -/
structure AnalyzerState where
  resultCache : List (Str × AnalysisResult)
  fetchCache : List (Params × Option Document)
  netCalls : ℕ

/-- The empty initial state of a fresh `HHVacancyAnalyzer`. -/
def emptyState : AnalyzerState :=
  { resultCache := [], fetchCache := [], netCalls := 0 }

/-- Embedding of `get_vacancies` under its `@cached(cache=TTLCache(...))` decorator
(hh_api.py:19-36): on a cache hit return the stored value — which may be the
cached `None` of an earlier failure — otherwise call the network once and
store whatever came back, `None` included (`cachetools.cached` stores the
wrapped function's return value unconditionally). -/
def get_vacancies (net : Net) (st : AnalyzerState) (p : Params) :
    Option Document × AnalyzerState :=
  match lookupAssoc st.fetchCache p with
  | some v => (v, st)
  | none =>
    (net p, { st with fetchCache := (p, net p) :: st.fetchCache
                      netCalls := st.netCalls + 1 })

/-- What a call to `analyze_vacancies` does to its caller: either an
exception escapes (`raised`) or a value is returned (`returned`), `none`
standing for Python's `None`. -/
inductive Outcome where
  | raised : Outcome
  | returned : Option AnalysisResult → Outcome
deriving DecidableEq

/-- Embedding of `analyze_vacancies` (hh_api.py:73-123): result-cache lookup, fetch,
`save_to_db`, statistics, result-cache store.  `persistOk` tells whether
`save_to_db` succeeds; the call sits unguarded between the fetch and the
statistics pass, so its exception escapes before anything is computed or
cached. -/
def analyze_vacancies (net : Net) (persistOk : Bool) (st : AnalyzerState)
    (q a e em s : Str) : Outcome × AnalyzerState :=
  match lookupAssoc st.resultCache (cacheKey q a e em s) with
  | some r => (.returned (some r), st)
  | none =>
    match get_vacancies net st (q, a, e, em, s) with
    | (none, st') => (.returned none, st')
    | (some doc, st') =>
      if persistOk then
        (.returned (some (computeResult q doc.items)),
         { st' with resultCache :=
             (cacheKey q a e em s, computeResult q doc.items)
               :: st'.resultCache })
      else
        (.raised, st')

theorem get_vacancies_resultCache (net : Net) (st : AnalyzerState)
    (p : Params) : ((get_vacancies net st p).2).resultCache = st.resultCache := by
  unfold get_vacancies
  cases lookupAssoc st.fetchCache p <;> rfl

/-! ### Concrete inputs used by witnesses and counterexamples -/

/-- A vacancy whose only populated field is the requirement snippet. -/
def snippetVac (d : String) : Vacancy :=
  { name := [], employerName := none, salaryFrom := none, salaryTo := none
    areaName := [], experienceName := none, employmentName := none
    alternateUrl := [], snippetRequirement := some (str d) }

/-- A vacancy whose only populated field is the salary lower bound. -/
def salVac (x : Option ℤ) : Vacancy :=
  { name := [], employerName := none, salaryFrom := some x, salaryTo := none
    areaName := [], experienceName := none, employmentName := none
    alternateUrl := [], snippetRequirement := none }

/-- A vacancy with every optional field absent. -/
def bareVac : Vacancy :=
  { name := [], employerName := none, salaryFrom := none, salaryTo := none
    areaName := [], experienceName := none, employmentName := none
    alternateUrl := [], snippetRequirement := none }

/-- A network that always fails with a transport error. -/
def netFail : Net := fun _ => none

/-- A network that always succeeds with an empty listing document. -/
def netOk : Net := fun _ => some { items := [] }

/-! ### Claim theorems -/

/-- C6: for every snippet string, tokenization splits on whitespace,
lower-cases, trims, and keeps exactly the tokens longer than 2 characters in
their original order (the code filters on the raw token's length, but on
`str.split()` output trimming is the identity and lower-casing preserves
length, so this agrees with the specification's reading); in particular
"Python SQL Python" tokenizes to ("python","sql","python") and the frequency
counter of a listing with that snippet gives "python" the count 2. -/
theorem parse_requirements_follows_spec :
    (∀ s : Str, parse_requirements s = specTokens s)
  ∧ parse_requirements (str "Python SQL Python")
      = [str "python", str "sql", str "python"]
  ∧ lookupAssoc (reqCount [snippetVac "Python SQL Python"]) (str "python")
      = some 2 := by
  refine ⟨?_, by decide, by decide⟩
  intro s
  unfold parse_requirements specTokens
  rw [filter_map_swap]
  congr 1
  apply List.filter_congr
  intro t ht
  have hws := mem_splitWs_no_ws ht
  have hlen : (pyLower (pyStrip t)).length = t.length := by
    rw [pyLower, List.length_map, pyStrip_eq_self hws]
  rw [hlen]

/-- C5: for every listing document, the requirement ranking
(`requirements.count`) is a permutation of the counter's items sorted
descending on count, stably — restricted to any fixed count the sorted list
preserves the counter's first-encountered order — and the top-10 requirement
and top-10 employer lists are prefixes of their respective full rankings with
length at most 10; the employer ranking has the same descending/stable shape
over the employer counter. -/
theorem rankings_stable_and_topten (q : Str) (vs : List Vacancy) :
    ((computeResult q vs).requirements_count).Perm (reqCount vs)
  ∧ List.Pairwise (fun a b : Str × ℕ => b.2 ≤ a.2)
      ((computeResult q vs).requirements_count)
  ∧ (∀ c : ℕ, ((computeResult q vs).requirements_count).filter
        (fun p => decide (p.2 = c))
      = (reqCount vs).filter (fun p => decide (p.2 = c)))
  ∧ (computeResult q vs).top_skills <+: (computeResult q vs).requirements_count
  ∧ (computeResult q vs).top_skills.length ≤ 10
  ∧ (sortByCountDesc (companiesOf vs)).Perm (companiesOf vs)
  ∧ List.Pairwise (fun a b : Str × ℕ => b.2 ≤ a.2)
      (sortByCountDesc (companiesOf vs))
  ∧ (∀ c : ℕ, (sortByCountDesc (companiesOf vs)).filter
        (fun p => decide (p.2 = c))
      = (companiesOf vs).filter (fun p => decide (p.2 = c)))
  ∧ (computeResult q vs).top_companies <+: sortByCountDesc (companiesOf vs)
  ∧ (computeResult q vs).top_companies.length ≤ 10 := by
  refine ⟨sortByCountDesc_perm _, sortByCountDesc_pairwise _,
    fun c => sortByCountDesc_stable _ c, ?_, ?_, sortByCountDesc_perm _,
    sortByCountDesc_pairwise _, fun c => sortByCountDesc_stable _ c, ?_, ?_⟩
  · show ((sortedReq vs).take 10) <+: sortedReq vs
    exact List.take_prefix 10 _
  · show ((sortedReq vs).take 10).length ≤ 10
    rw [List.length_take]
    exact min_le_left _ _
  · show ((sortByCountDesc (companiesOf vs)).take 10) <+: _
    exact List.take_prefix 10 _
  · show ((sortByCountDesc (companiesOf vs)).take 10).length ≤ 10
    rw [List.length_take]
    exact min_le_left _ _

/-- C9: the percentage computation never divides by zero — the requirement
counter is non-empty only when the listing count is at least 1 — and the
analysis of a document with an empty `items` array completes with total 0,
empty requirement tables, and average and median salary 0. -/
theorem no_division_by_zero_and_empty_doc (q : Str) (vs : List Vacancy) :
    ((computeResult q vs).requirements_count = []
      ∨ 1 ≤ (computeResult q vs).total_vacancies)
  ∧ (computeResult q []).total_vacancies = 0
  ∧ (computeResult q []).requirements_count = []
  ∧ (computeResult q []).requirements_percentage = []
  ∧ (computeResult q []).top_skills = []
  ∧ (computeResult q []).unique_requirements = 0
  ∧ (computeResult q []).average_salary = 0
  ∧ (computeResult q []).median_salary = 0 := by
  refine ⟨?_, rfl, rfl, rfl, rfl, rfl, pyRound2_zero, pyRound2_zero⟩
  cases vs with
  | nil => exact Or.inl rfl
  | cons v vs =>
    right
    show 1 ≤ (v :: vs).length
    simp

/-- C4 (amended): the returned `average_salary` is `sum(salaries)/count`
rounded to two decimal places (the claim's exact equality fails, see the
counterexample); the returned `median_salary` matches the standard median
definition exactly — the two-decimal rounding is the identity on medians of
integer samples; with zero salaried listings both are 0. -/
theorem salary_stats_formulas (q : Str) (vs : List Vacancy) :
    (computeResult q vs).average_salary = pyRound2 (specAverage (salariesOf vs))
  ∧ (computeResult q vs).median_salary = specMedian (salariesOf vs) := by
  by_cases h : salariesOf vs = []
  · constructor
    · show pyRound2 (if salariesOf vs = [] then 0 else _) = _
      rw [if_pos h]
      unfold specAverage
      rw [if_pos h, pyRound2_zero]
    · show pyRound2 (if salariesOf vs = [] then 0 else _) = _
      rw [if_pos h]
      unfold specMedian
      rw [if_pos h, pyRound2_zero]
  · constructor
    · show pyRound2 (if salariesOf vs = [] then 0 else _) = _
      rw [if_neg h]
      unfold specAverage
      rw [if_neg h]
    · show pyRound2 (if salariesOf vs = [] then 0 else _) = _
      rw [if_neg h]
      obtain ⟨z, hz⟩ := medianOf_eq_int_div_two (salariesOf vs)
      rw [hz, pyRound2_int_div_two, ← hz]
      exact medianOf_eq_specMedian h

theorem roundHalfEven_50000_div_3 : roundHalfEven ((50000 : ℚ) / 3) = 16667 := by
  have hf : ⌊(50000 / 3 : ℚ)⌋ = 16666 := by
    rw [Int.floor_eq_iff]
    norm_num
  unfold roundHalfEven
  rw [hf]
  have h1 : ¬ ((50000 : ℚ) / 3 - ((16666 : ℤ) : ℚ) < 1 / 2) := by norm_num
  have h2 : (1 : ℚ) / 2 < (50000 : ℚ) / 3 - ((16666 : ℤ) : ℚ) := by norm_num
  rw [if_neg h1, if_pos h2]
  norm_num

theorem roundHalfEven_10000_div_3 : roundHalfEven ((10000 : ℚ) / 3) = 3333 := by
  have hf : ⌊(10000 / 3 : ℚ)⌋ = 3333 := by
    rw [Int.floor_eq_iff]
    norm_num
  unfold roundHalfEven
  rw [hf]
  have h1 : (10000 : ℚ) / 3 - ((3333 : ℤ) : ℚ) < 1 / 2 := by norm_num
  rw [if_pos h1]

/-- C4 (counterexample): on salaries 100, 200, 200 the returned average is
166.67, not the exact mean 500/3 — the claim's equality
`average_salary = sum(salaries)/count` fails on the code, which rounds. -/
theorem average_salary_not_exact :
    salariesOf [salVac (some 100), salVac (some 200), salVac (some 200)]
        = [100, 200, 200]
  ∧ (computeResult [] [salVac (some 100), salVac (some 200), salVac (some 200)]).average_salary
        = 16667 / 100
  ∧ (16667 / 100 : ℚ)
        ≠ ([(100 : ℤ), 200, 200].sum : ℚ) / (([(100 : ℤ), 200, 200] : List ℤ).length : ℚ) := by
  refine ⟨rfl, ?_, by norm_num⟩
  have h1 : (computeResult [] [salVac (some 100), salVac (some 200), salVac (some 200)]).average_salary
      = pyRound2 (((100 + 200 + 200 : ℤ) : ℚ) / ((3 : ℕ) : ℚ)) := rfl
  have h2 : (((100 + 200 + 200 : ℤ) : ℚ) / ((3 : ℕ) : ℚ)) * 100 = (50000 : ℚ) / 3 := by
    push_cast
    ring
  rw [h1]
  unfold pyRound2
  rw [h2, roundHalfEven_50000_div_3]
  norm_num

-- The analysis result depends on the listing list only through the salary
-- sample, the length, the requirement token stream, and the three label
-- streams.
theorem computeResult_congr {q : Str} {vs ws : List Vacancy}
    (hlen : vs.length = ws.length)
    (hsal : salariesOf vs = salariesOf ws)
    (hreq : allReqs vs = allReqs ws)
    (hexp : vs.filterMap Vacancy.experienceName
      = ws.filterMap Vacancy.experienceName)
    (hemp : vs.filterMap Vacancy.employmentName
      = ws.filterMap Vacancy.employmentName)
    (hcomp : vs.filterMap Vacancy.employerName
      = ws.filterMap Vacancy.employerName) :
    computeResult q vs = computeResult q ws := by
  unfold computeResult sortedReq reqCount companiesOf
  rw [hlen, hsal, hreq, hexp, hemp, hcomp]

/-- C10: a listing whose salary object is present but whose lower bound is 0
or null is excluded from the salary sample — the analysis result is exactly
the one computed as if the listing carried no salary object at all. -/
theorem zero_or_null_salary_excluded (q : Str) (pre post : List Vacancy)
    (v : Vacancy) (h : v.salaryFrom = some none ∨ v.salaryFrom = some (some 0)) :
    computeResult q (pre ++ v :: post)
      = computeResult q (pre ++ { v with salaryFrom := none } :: post) := by
  have hft : salaryFromTruthy v = none := by
    rcases h with h | h
    · simp [salaryFromTruthy, h]
    · simp [salaryFromTruthy, h]
  have hft2 : salaryFromTruthy { v with salaryFrom := none } = none := rfl
  have hr : reqsOfVacancy { v with salaryFrom := none } = reqsOfVacancy v := rfl
  apply computeResult_congr
  · simp
  · simp [salariesOf, List.filterMap_append, List.filterMap_cons, hft, hft2]
  · simp [allReqs, hr]
  · simp [List.filterMap_append, List.filterMap_cons]
  · simp [List.filterMap_append, List.filterMap_cons]
  · simp [List.filterMap_append, List.filterMap_cons]

theorem zero_or_null_salary_excluded_witness :
    computeResult [] ([] ++ salVac (some 0) :: [])
      = computeResult [] ([] ++ { salVac (some 0) with salaryFrom := none } :: []) :=
  zero_or_null_salary_excluded [] [] [] (salVac (some 0)) (Or.inr rfl)

/-- C8 (amended): every entry of the result's requirement percentage table
holds the token's count divided by the total listing count, times 100,
rounded to two decimal places (the claim's exact equality fails, see the
counterexample). -/
theorem percentage_formula (q : Str) (vs : List Vacancy) (t : Str) (p : ℚ)
    (h : (t, p) ∈ (computeResult q vs).requirements_percentage) :
    p = pyRound2 (((countOcc (allReqs vs) t : ℚ) / (vs.length : ℚ)) * 100) := by
  have h' : (t, p) ∈ (reqCount vs).map
      (fun pr => (pr.1, pyRound2 (((pr.2 : ℚ) / (vs.length : ℚ)) * 100))) := h
  obtain ⟨pr, hpr, heq⟩ := List.mem_map.mp h'
  obtain ⟨a, _, heq2⟩ := List.mem_map.mp hpr
  rw [← heq2] at heq
  simp only [Prod.mk.injEq] at heq
  obtain ⟨rfl, rfl⟩ := heq
  rfl

theorem pyRound2_one_of_one : pyRound2 ((((1:ℕ) : ℚ) / ((1:ℕ) : ℚ)) * 100) = 100 := by
  have h : ((((1:ℕ) : ℚ) / ((1:ℕ) : ℚ)) * 100) * 100 = ((10000 : ℤ) : ℚ) := by
    push_cast
    ring
  unfold pyRound2
  rw [h, roundHalfEven_intCast]
  norm_num

theorem percentage_formula_witness :
    (100 : ℚ) = pyRound2 (((countOcc (allReqs [snippetVac "sql"]) (str "sql") : ℚ)
        / (([snippetVac "sql"] : List Vacancy).length : ℚ)) * 100) := by
  apply percentage_formula (str "q") [snippetVac "sql"] (str "sql") 100
  have htab : (computeResult (str "q") [snippetVac "sql"]).requirements_percentage
      = [(str "sql", pyRound2 ((((1:ℕ) : ℚ) / ((1:ℕ) : ℚ)) * 100))] := rfl
  rw [htab, pyRound2_one_of_one]
  exact List.mem_singleton.mpr rfl

/-- C8 (counterexample): one token occurring in one of three listings is
reported as 33.33 percent, while count/total × 100 is the non-terminating
100/3 — the claim's exact equality fails on the code, which rounds the
percentage to two decimals. -/
theorem percentage_not_exact :
    lookupAssoc
        (computeResult [] [snippetVac "sql", bareVac, bareVac]).requirements_percentage
        (str "sql") = some (3333 / 100)
  ∧ (3333 / 100 : ℚ)
      ≠ ((countOcc (allReqs [snippetVac "sql", bareVac, bareVac]) (str "sql") : ℚ)
          / (([snippetVac "sql", bareVac, bareVac] : List Vacancy).length : ℚ)) * 100 := by
  constructor
  · have htab : (computeResult [] [snippetVac "sql", bareVac, bareVac]).requirements_percentage
        = [(str "sql", pyRound2 ((((1:ℕ) : ℚ) / ((3:ℕ) : ℚ)) * 100))] := rfl
    have hval : pyRound2 ((((1:ℕ) : ℚ) / ((3:ℕ) : ℚ)) * 100) = 3333 / 100 := by
      have h : ((((1:ℕ) : ℚ) / ((3:ℕ) : ℚ)) * 100) * 100 = (10000 : ℚ) / 3 := by
        push_cast
        ring
      unfold pyRound2
      rw [h, roundHalfEven_10000_div_3]
      norm_num
    rw [htab, hval]
    exact lookupAssoc_cons_self _ _ _
  · show (3333 / 100 : ℚ) ≠ (((1:ℕ) : ℚ) / ((3:ℕ) : ℚ)) * 100
    push_cast
    norm_num

-- Joining two underscore-free chunks with an underscore separator is
-- injective.
theorem append_underscore_inj {x1 x2 r1 r2 : Str}
    (h1 : '_' ∉ x1) (h2 : '_' ∉ x2)
    (h : x1 ++ '_' :: r1 = x2 ++ '_' :: r2) : x1 = x2 ∧ r1 = r2 := by
  induction x1 generalizing x2 with
  | nil =>
    cases x2 with
    | nil => simpa using h
    | cons d u =>
      simp only [List.nil_append, List.cons_append, List.cons.injEq] at h
      exact absurd (h.1 ▸ List.mem_cons_self d u) h2
  | cons c t ih =>
    cases x2 with
    | nil =>
      simp only [List.nil_append, List.cons_append, List.cons.injEq] at h
      exact absurd (h.1 ▸ List.mem_cons_self c t) h1
    | cons d u =>
      simp only [List.cons_append, List.cons.injEq] at h
      obtain ⟨rfl, h⟩ := h
      have hih := ih (fun hm => h1 (List.mem_cons_of_mem c hm))
        (fun hm => h2 (List.mem_cons_of_mem c hm)) h
      exact ⟨by rw [hih.1], hih.2⟩

/-- C2 (amended): the five-parameter cache key separates parameters with an
underscore, so it is injective only on underscore-free parameters: if no
component contains the character `_`, equal keys force equal parameter
tuples.  (The unrestricted claim fails: see the collision counterexample.) -/
theorem cacheKey_inj (q1 a1 e1 m1 s1 q2 a2 e2 m2 s2 : Str)
    (hq1 : '_' ∉ q1) (ha1 : '_' ∉ a1) (he1 : '_' ∉ e1) (hm1 : '_' ∉ m1)
    (hq2 : '_' ∉ q2) (ha2 : '_' ∉ a2) (he2 : '_' ∉ e2) (hm2 : '_' ∉ m2)
    (h : cacheKey q1 a1 e1 m1 s1 = cacheKey q2 a2 e2 m2 s2) :
    q1 = q2 ∧ a1 = a2 ∧ e1 = e2 ∧ m1 = m2 ∧ s1 = s2 := by
  unfold cacheKey at h
  obtain ⟨hq, h⟩ := append_underscore_inj hq1 hq2 h
  obtain ⟨ha, h⟩ := append_underscore_inj ha1 ha2 h
  obtain ⟨he, h⟩ := append_underscore_inj he1 he2 h
  obtain ⟨hm, h⟩ := append_underscore_inj hm1 hm2 h
  exact ⟨hq, ha, he, hm, h⟩

theorem cacheKey_inj_witness :
    str "py" = str "py" ∧ str "1" = str "1" ∧ str "x" = str "x"
  ∧ str "y" = str "y" ∧ str "z" = str "z" :=
  cacheKey_inj (str "py") (str "1") (str "x") (str "y") (str "z")
    (str "py") (str "1") (str "x") (str "y") (str "z")
    (by decide) (by decide) (by decide) (by decide)
    (by decide) (by decide) (by decide) (by decide) rfl

/-- C2 (counterexample): two distinct parameter tuples produce the same cache
key — `("a_b","c",...)` and `("a","b_c",...)` both give the key
`"a_b_c_..."` — so a cached result for one tuple is returned for the other. -/
theorem cacheKey_collision :
    cacheKey (str "a_b") (str "c") (str "d") (str "e") (str "f")
      = cacheKey (str "a") (str "b_c") (str "d") (str "e") (str "f")
  ∧ ((str "a_b", str "c", str "d", str "e", str "f") : Params)
      ≠ ((str "a", str "b_c", str "d", str "e", str "f") : Params) := by
  constructor
  · decide
  · decide

/-- C1 (amended): when both caches miss and the network call fails, analyze
returns None and writes nothing to the result cache, but the response cache
does gain an entry — the TTL cache wrapping `get_vacancies` stores the `None`
returned by the failure handler (the unrestricted "no entry in either cache"
fails: see the counterexample). -/
theorem analyze_fetch_failure (net : Net) (persistOk : Bool)
    (st : AnalyzerState) (q a e em s : Str)
    (h1 : lookupAssoc st.resultCache (cacheKey q a e em s) = none)
    (h2 : lookupAssoc st.fetchCache (q, a, e, em, s) = none)
    (h3 : net (q, a, e, em, s) = none) :
    analyze_vacancies net persistOk st q a e em s
      = (.returned none,
         { st with fetchCache := ((q, a, e, em, s), none) :: st.fetchCache
                   netCalls := st.netCalls + 1 }) := by
  unfold analyze_vacancies get_vacancies
  rw [h1, h2, h3]

theorem analyze_fetch_failure_witness :
    analyze_vacancies netFail true emptyState (str "py") (str "1") [] [] []
      = (.returned none,
         { resultCache := []
           fetchCache := [((str "py", str "1", [], [], []), none)]
           netCalls := 1 }) :=
  analyze_fetch_failure netFail true emptyState (str "py") (str "1") [] [] []
    rfl rfl rfl

/-- C1 (counterexample): after a failing fetch on empty caches, analyze has
returned None and the result cache is still empty, but looking the parameter
tuple up in the fetcher's response cache now finds a stored entry (holding
`None`) — the claim that neither cache gains an entry is false. -/
theorem fetch_failure_caches_none :
    (analyze_vacancies netFail true emptyState (str "py") (str "1") [] [] []).1
        = .returned none
  ∧ (analyze_vacancies netFail true emptyState (str "py") (str "1") [] [] []).2.resultCache
        = []
  ∧ lookupAssoc
      (analyze_vacancies netFail true emptyState (str "py") (str "1") [] [] []).2.fetchCache
      (str "py", str "1", [], [], []) = some none :=
  ⟨rfl, rfl, rfl⟩

/-- C3 (amended): persistence gates the returned result.  After a result-cache
miss and a successful fetch, `save_to_db` runs unguarded before the
statistics: if it raises, the exception escapes `analyze_vacancies`, no
result is returned and the result cache is unchanged; only if it succeeds is
the result computed, stored in the result cache, and returned.  (The claim
that a persistence failure cannot prevent the result fails: see the
counterexample.) -/
theorem analyze_persistence_gates (net : Net) (st : AnalyzerState)
    (q a e em s : Str) (doc : Document)
    (h1 : lookupAssoc st.resultCache (cacheKey q a e em s) = none)
    (h2 : (get_vacancies net st (q, a, e, em, s)).1 = some doc) :
    ((analyze_vacancies net false st q a e em s).1 = .raised
      ∧ (analyze_vacancies net false st q a e em s).2.resultCache
          = st.resultCache)
  ∧ (analyze_vacancies net true st q a e em s).1
        = .returned (some (computeResult q doc.items))
  ∧ lookupAssoc (analyze_vacancies net true st q a e em s).2.resultCache
        (cacheKey q a e em s) = some (computeResult q doc.items) := by
  have hrc : ((get_vacancies net st (q, a, e, em, s)).2).resultCache
      = st.resultCache := get_vacancies_resultCache net st _
  rcases hg : get_vacancies net st (q, a, e, em, s) with ⟨d, st'⟩
  rw [hg] at h2 hrc
  simp only at h2 hrc
  subst h2
  unfold analyze_vacancies
  rw [h1, hg]
  exact ⟨⟨rfl, hrc⟩, rfl, lookupAssoc_cons_self _ _ _⟩

theorem analyze_persistence_gates_witness :
    (((analyze_vacancies netOk false emptyState (str "py") (str "1") [] [] []).1
          = .raised
      ∧ (analyze_vacancies netOk false emptyState (str "py") (str "1") [] [] []).2.resultCache
          = emptyState.resultCache)
  ∧ (analyze_vacancies netOk true emptyState (str "py") (str "1") [] [] []).1
        = .returned (some (computeResult (str "py") []))
  ∧ lookupAssoc
        (analyze_vacancies netOk true emptyState (str "py") (str "1") [] [] []).2.resultCache
        (cacheKey (str "py") (str "1") [] [] [])
      = some (computeResult (str "py") [])) :=
  analyze_persistence_gates netOk emptyState (str "py") (str "1") [] [] []
    { items := [] } rfl rfl

/-- C3 (counterexample): the fetch succeeds, yet with failing persistence
analyze raises instead of returning the computed result, and nothing is
cached — persistence does gate the returned result. -/
theorem persistence_failure_prevents_result :
    netOk (str "py", str "1", [], [], []) = some { items := [] }
  ∧ (analyze_vacancies netOk false emptyState (str "py") (str "1") [] [] []).1
      = .raised
  ∧ (analyze_vacancies netOk false emptyState (str "py") (str "1") [] [] []).2.resultCache
      = [] :=
  ⟨rfl, rfl, rfl⟩

/-- C7: once a call to analyze has returned a result `r` (from the cache or
freshly computed), a second call with the identical five parameters — still
within the TTL and before eviction, which the association-list cache model
assumes — returns the bit-identical `r` and leaves the state untouched: no
new network call (`netCalls` unchanged), no recomputation, no cache write. -/
theorem analyze_second_call (net : Net) (persistOk1 persistOk2 : Bool)
    (st st1 : AnalyzerState) (q a e em s : Str) (r : AnalysisResult)
    (h : analyze_vacancies net persistOk1 st q a e em s
      = (.returned (some r), st1)) :
    analyze_vacancies net persistOk2 st1 q a e em s
      = (.returned (some r), st1) := by
  have hlook : lookupAssoc st1.resultCache (cacheKey q a e em s) = some r := by
    unfold analyze_vacancies at h
    cases hc : lookupAssoc st.resultCache (cacheKey q a e em s) with
    | some r0 =>
      rw [hc] at h
      simp only [Prod.mk.injEq, Outcome.returned.injEq, Option.some.injEq] at h
      obtain ⟨hr, hst⟩ := h
      rw [← hst, hc, hr]
    | none =>
      rw [hc] at h
      rcases hg : get_vacancies net st (q, a, e, em, s) with ⟨d, st'⟩
      rw [hg] at h
      cases d with
      | none => simp at h
      | some doc =>
        cases persistOk1 with
        | false => simp at h
        | true =>
          simp only [Prod.mk.injEq, Outcome.returned.injEq,
            Option.some.injEq] at h
          try obtain ⟨hr, hst⟩ := h
          try rw [← hst]
          try rw [← hr]
          exact lookupAssoc_cons_self _ _ _
  unfold analyze_vacancies
  rw [hlook]

theorem analyze_second_call_witness :
    analyze_vacancies netOk false
        (analyze_vacancies netOk true emptyState (str "py") (str "1") [] [] []).2
        (str "py") (str "1") [] [] []
      = (.returned (some (computeResult (str "py") [])),
         (analyze_vacancies netOk true emptyState (str "py") (str "1") [] [] []).2) :=
  analyze_second_call netOk true false emptyState
    (analyze_vacancies netOk true emptyState (str "py") (str "1") [] [] []).2
    (str "py") (str "1") [] [] [] (computeResult (str "py") []) rfl
